import Mathlib

/-!
Verification development for the license-CSV generator
(`generate-license-csv.py`).

The script is a single linear pipeline:

* `extract_copyright` scans license texts with the regular expression
  on line 22 of the source for copyright-holder candidates, cleans and
  filters them, keeps the shortest surviving candidate, and otherwise
  falls back to a name-derived default;
* `parse_yml_to_csv` folds the manifest entries into a first-wins,
  insertion-ordered collection of per-component summaries;
* `write_csv` sorts the summaries case-insensitively by component name
  and emits comma-separated lines with commas in fields replaced by
  semicolons.

The regular expression of the source,

  Copyright\s+(?:\(c\)\s*)?(?:Â©\s*)?(?:\d\x7b4\x7d[-,\s\d]*\s+)?
  ([A-Z][^\n]\x7b3,80\x7d?)(?:\s*<[^>]+>)?\s*(?:\n|$)

with the MULTILINE flag, is embedded below as a hand-compiled
deterministic matcher.  The compilation resolves the backtracking of
the Python engine by hand; the comments at each function record the
argument for why the greedy/lazy choices collapse to the deterministic
code.  Note that the marker between the optional "(c)" and the optional
year is the two-character sequence 'Â' '©' (U+00C2 U+00A9), exactly as
written in the source file: this is the double-encoded (mojibake) form
of the single character '©' (U+00A9).
-/

/-- Python's `\s` on the ASCII range: space, tab, newline, vertical tab,
form feed, carriage return (code points 32 and 9..13). -/
def isSpaceChar (c : Char) : Bool :=
  c.toNat == 32 || c.toNat == 9 || c.toNat == 10 || c.toNat == 11 ||
  c.toNat == 12 || c.toNat == 13

/-- Character class `[-,\s\d]` of the year part of the pattern. -/
def isYearClass (c : Char) : Bool :=
  c == '-' || c == ',' || isSpaceChar c || c.isDigit

/-- Character class `[A-Z]` (ASCII uppercase only, as in the pattern). -/
def isUpperAZ (c : Char) : Bool :=
  65 ≤ c.toNat && c.toNat ≤ 90

/-- The literal word the pattern starts with. -/
def copyrightWord : List Char := ['C','o','p','y','r','i','g','h','t']

/-- Tail part `\s*(?:\n|$)` of the pattern under MULTILINE.  The greedy
`\s*` followed by the alternation succeeds iff the whitespace run at the
current position either reaches the end of the string (`$` at end) or
contains a newline (`\n`, preferred at the largest possible offset, so
the match ends just after the last newline of the run).  Returns the
rest of the input after the match end. -/
def tryEnd (cs : List Char) : Option (List Char) :=
  let run := cs.takeWhile isSpaceChar
  let rest := cs.dropWhile isSpaceChar
  if rest.isEmpty then some [] else
  if run.contains '\n' then
    some ((run.reverse.takeWhile (fun c => !(c == '\n'))).reverse ++ rest)
  else none

/-- Part `(?:\s*<[^>]+>)?\s*(?:\n|$)` of the pattern.  The optional
email group is tried first (greedy): `\s*` before `<` must reach a `<`
(deterministic, as `<` is not whitespace), `[^>]+` greedily runs to the
first `>` (shorter attempts fail on the mandatory `>`).  If that branch
or its continuation fails, the group matches empty and `\s*(?:\n|$)`
restarts from the original position. -/
def tryTail (cs : List Char) : Option (List Char) :=
  let s1 := cs.dropWhile isSpaceChar
  match s1 with
  | '<' :: inner =>
      let body := inner.takeWhile (fun c => !(c == '>'))
      let after := inner.dropWhile (fun c => !(c == '>'))
      match after with
      | '>' :: rest2 =>
          if body.isEmpty then tryEnd cs
          else
            match tryEnd rest2 with
            | some r => some r
            | none => tryEnd cs
      | _ => tryEnd cs
  | _ => tryEnd cs

/-- Lazy quantifier `[^\n]\x7b3,80\x7d?` after the initial `[A-Z]`:
the shortest body length `k` (from 3 up to 80) for which the tail of
the pattern matches wins.  If the input runs out of non-newline
characters before any tail match, no larger `k` can succeed and the
whole attempt fails.  The countdown `n` bounds the remaining lengths to
try (`78` values: 3..80). -/
def tryLensAux (c : Char) (rest : List Char) : Nat → Nat → Option (List Char × List Char)
  | 0, _ => none
  | Nat.succ n, k =>
      let body := rest.take k
      if body.length == k && body.all (fun d => !(d == '\n')) then
        match tryTail (rest.drop k) with
        | some r => some (c :: body, r)
        | none => tryLensAux c rest n (k + 1)
      else none

/-- Holder group `([A-Z][^\n]\x7b3,80\x7d?)` followed by the tail of the
pattern.  Returns the captured group and the rest after the match. -/
def matchHolder (cs : List Char) : Option (List Char × List Char) :=
  match cs with
  | c :: rest => if isUpperAZ c then tryLensAux c rest 78 3 else none
  | [] => none

/-- Optional year group `(?:\d\x7b4\x7d[-,\s\d]*\s+)?` when the current
character is a digit.  Backtracking collapses as follows: the group
must end exactly at the end of the maximal `[-,\s\d]` run `r` after the
four digits (any earlier stop leaves a class character that `[A-Z]`
cannot match), which requires the last character of `r` to be
whitespace so that `\s+` is satisfied.  If the group cannot match this
way, the empty alternative leaves `[A-Z]` facing a digit, so the whole
attempt fails. -/
def matchYear (cs : List Char) : Option (List Char) :=
  let ds := cs.take 4
  if ds.length == 4 && ds.all Char.isDigit then
    let rest1 := cs.drop 4
    let r := rest1.takeWhile isYearClass
    match r.getLast? with
    | some c => if isSpaceChar c then some (rest1.drop r.length) else none
    | none => none
  else none

/-- Attempts the pattern right after the literal `Copyright`, following
the priority order of the Python engine.  `\s+` takes the maximal
whitespace run (shorter runs leave whitespace that no later pattern
item can start with); each optional marker group is taken iff its
literal is present (otherwise the skipped alternative immediately fails
on `[A-Z]`). -/
def tryMatch (cs : List Char) : Option (List Char × List Char) :=
  let ws := cs.takeWhile isSpaceChar
  if ws.isEmpty then none else
  let cs1 := cs.dropWhile isSpaceChar
  let cs2 := if ['(', 'c', ')'].isPrefixOf cs1 then
               (cs1.drop 3).dropWhile isSpaceChar else cs1
  let cs3 := if ['Â', '©'].isPrefixOf cs2 then
               (cs2.drop 2).dropWhile isSpaceChar else cs2
  match cs3 with
  | c :: _ =>
      if c.isDigit then
        match matchYear cs3 with
        | some cs4 => matchHolder cs4
        | none => none
      else matchHolder cs3
  | [] => none

/-- Scan of `re.finditer`: at each position, a match is attempted iff
the literal `Copyright` starts there; on success the scan resumes after
the match end (matches never overlap), on failure at the next
character.  The fuel starts at `length + 1`; every step consumes at
least one character, so it never runs out. -/
def scanAux : Nat → List Char → List (List Char)
  | 0, _ => []
  | _, [] => []
  | Nat.succ fuel, c :: cs =>
      if copyrightWord.isPrefixOf (c :: cs) then
        match tryMatch (List.drop 9 (c :: cs)) with
        | some (g, rest) => g :: scanAux fuel rest
        | none => scanAux fuel cs
      else scanAux fuel cs

/-- All `group(1)` captures of the pattern over one text, in scan
order. -/
def scanText (cs : List Char) : List (List Char) :=
  scanAux (cs.length + 1) cs

/-- Python `str.strip()` on the ASCII range: drop whitespace from both
ends. -/
def stripWs (l : List Char) : List Char :=
  (((l.dropWhile isSpaceChar).reverse).dropWhile isSpaceChar).reverse

/-- Helper of `normWs`: the flag records whether the previous character
was whitespace (in which case further whitespace is dropped). -/
def normWsAux : Bool → List Char → List Char
  | _, [] => []
  | prev, c :: cs =>
      if isSpaceChar c then
        if prev then normWsAux true cs else ' ' :: normWsAux true cs
      else c :: normWsAux false cs

/-- Line 43 of the source: `re.sub` replacing every maximal whitespace
run by a single space. -/
def normWs (l : List Char) : List Char := normWsAux false l

/-- Line 44 of the source: `rstrip` of the trailing characters `.`,
`,`, `;`, `:`. -/
def rstripPunct (l : List Char) : List Char :=
  (l.reverse.dropWhile (fun c => c == '.' || c == ',' || c == ';' || c == ':')).reverse

/-- Lines 40-44 of the source: strip, collapse whitespace, strip
trailing punctuation. -/
def cleanCandidate (g : List Char) : List Char := rstripPunct (normWs (stripWs g))

/-- ASCII lowering, the model of Python `str.lower()`. -/
def lowerL (l : List Char) : List Char := l.map Char.toLower

/-- Substring containment test, the model of Python `a in b` on
strings. -/
def isSubstring (n : List Char) : List Char → Bool
  | [] => n.isEmpty
  | c :: cs => n.isPrefixOf (c :: cs) || isSubstring n cs

/-- The exclusion vocabulary of lines 25-30 of the source, verbatim. -/
def templateIndicators : List (List Char) :=
  ["owner".data, "holder".data, "licensor".data, "entity".data,
   "permission".data, "notice".data, "granting".data, "laws".data,
   "author or".data, "contributors".data, "reserved".data, "yyyy".data,
   "[year]".data, "[name".data, "<year>".data, "<name>".data,
   "all rights".data, "subject to".data, "terms and conditions".data,
   "license.".data, "licensed under".data]

/-- Rejection filters of lines 46-57 of the source: a cleaned candidate
survives iff it contains no exclusion-vocabulary substring
(case-insensitively), its length is in the range 5..80, and it has at
least 3 alphabetic characters. -/
def survives (cand : List Char) : Bool :=
  !(templateIndicators.any (fun ind => isSubstring ind (lowerL cand))) &&
  !(cand.length < 5 || cand.length > 80) &&
  !(cand.countP (fun c => c.isAlpha) < 3)

/-- All cleaned candidates of all matches of all non-empty texts, in
scan order (texts in sequence order, matches in positional order). -/
def rawCandidates (texts : List String) : List (List Char) :=
  ((texts.filter (fun t => !(t == ""))).map (fun t => (scanText t.data).map cleanCandidate)).flatten

/-- The candidates that survive the rejection filters, in scan
order. -/
def surviving (texts : List String) : List (List Char) :=
  (rawCandidates texts).filter survives

/-- Selection loop of lines 32-61 of the source: `best_match` is
replaced whenever it is falsy (`None` or empty) or the new candidate is
strictly shorter. -/
def pickBest : Option (List Char) → List (List Char) → Option (List Char)
  | b, [] => b
  | b, c :: cs =>
      match b with
      | none => pickBest (some c) cs
      | some b0 =>
          if b0.isEmpty || c.length < b0.length then pickBest (some c) cs
          else pickBest (some b0) cs

/-- Name-based fallback of lines 66-74 of the source. -/
def fallbackName (package_name : String) : String :=
  if isSubstring "datadog".data (lowerL package_name.data) then "Datadog, Inc."
  else if isSubstring "rust".data (lowerL package_name.data) ||
          (package_name == "libc" || package_name == "std" || package_name == "core") then
    "The Rust Project Developers"
  else "The " ++ package_name ++ " Authors"

/-- Lines 18-74 of the source, `extract_copyright(license_texts,
package_name)`: the shortest surviving candidate if any (first
encountered wins ties), otherwise the name-based fallback. -/
def extract_copyright (license_texts : List String) (package_name : String) : String :=
  match pickBest none (surviving license_texts) with
  | some b => if b.isEmpty then fallbackName package_name else String.mk b
  | none => fallbackName package_name

/-!
Validation of the embedded matcher against the observed behaviour of
the Python engine (`re.finditer` with the source pattern and MULTILINE)
on a corpus of inputs exercising every backtracking subtlety: the raw
captures below are exactly the `group(1)` values Python produces.
-/

example : scanText "Copyright (c) 2020 Jane Doe <jane@example.com>".data
    = ["Jane Doe".data] := by decide
example : scanText "Copyright 2020 Bobby\nCopyright (c) 2020 Jane Doe <jane@example.com>".data
    = ["Bobby".data, "Jane Doe".data] := by decide
example : scanText "Copyright © 2020 Jane Doe".data = [] := by decide
example : scanText "Copyright Â© 2020 Jane Doe".data = ["Jane Doe".data] := by decide
example : scanText "Copyright 2020 Alice Smith".data = ["Alice Smith".data] := by decide
example : scanText "Copyright 2020 Jane <a> Doe\nx".data = ["Jane <a> Doe".data] := by decide
example : scanText "Copyright 2020 Jon \n".data = ["Jon ".data] := by decide
example : scanText "Copyright 2020-2021, 2023 Foo Bar Inc.".data = ["Foo Bar Inc.".data] := by decide
example : scanText "Copyright 2020 A  B  \n after".data = ["A  B".data] := by decide
example : scanText "Copyright 2020 Jane Doe   \nCopyright 2021 Bo B\n".data
    = ["Jane Doe".data, "Bo B".data] := by decide
example : scanText "Copyright 2020 Jane <x\n".data = ["Jane <x".data] := by decide
example : scanText "Copyright (C) 2020 Upper Case".data = [] := by decide
example : scanText "Copyright 2020\n Jane Doe".data = ["Jane Doe".data] := by decide
example : scanText "Copyright    2020 , - 33 Xavier Q\n".data = ["Xavier Q".data] := by decide
example : scanText "CopyrightCopyright 2020 Nested Name\n".data = ["Nested Name".data] := by decide
example : scanText "Copyright [year] [name of copyright owner]".data = [] := by decide
example : scanText "Copyright 2020smith More\n".data = [] := by decide
example : scanText "Copyright 2020 B <a><b>\n".data = ["B <a>".data] := by decide
example : scanText "Copyright 2020 Jane Doe <a@b> extra\n".data
    = ["Jane Doe <a@b> extra".data] := by decide
example : scanText "Copyright 12345 Team X\n".data = ["Team X".data] := by decide
example : scanText "Copyright 2020 Xyz\n".data = [] := by decide
example : scanText "Copyright 2020 Xyzw\n".data = ["Xyzw".data] := by decide
example : scanText "Copyright (c)Â©2020 Tight Fit\n".data = ["Tight Fit".data] := by decide
example : scanText "Copyright (c) (c) Double Paren\n".data = [] := by decide
example : scanText "Copyright \t \n 2020 Mixed Ws\n".data = ["Mixed Ws".data] := by decide
example : scanText "copyright 2020 lower case\n".data = [] := by decide
example : scanText "Copyright 2020 Name <<x>>\n".data = ["Name <<x>>".data] := by decide
example : scanText "Copyright 2020 Jane\n<a@b>\nCopyright 2020 Second Guy\n".data
    = ["Jane".data, "Second Guy".data] := by decide
example : scanText "Copyright 2020 Jane <a@b>  \nX".data = ["Jane".data] := by decide
example : scanText "Copyright 2020 Jane\nCopyright in middle".data = ["Jane".data] := by decide
example : scanText "Copyright\n\n2020 Deep Name\n".data = ["Deep Name".data] := by decide
example : scanText "Copyright 2020 J<a@b>\n".data = ["J<a@b>".data] := by decide

example : extract_copyright ["Copyright (c) 2020 Jane Doe <jane@example.com>"] "x"
    = "Jane Doe" := by decide
example : extract_copyright [] "widget" = "The widget Authors" := by decide
example : extract_copyright [] "foo-rust-crate" = "The Rust Project Developers" := by decide
example : extract_copyright [] "datadog-tracer" = "Datadog, Inc." := by decide
example : extract_copyright [] "libc" = "The Rust Project Developers" := by decide
example : extract_copyright ["Copyright [year] [name of copyright owner]"] "widget"
    = "The widget Authors" := by decide

/-!
Typed model of the manifest.  A manifest entry is a mapping in which
every field the script reads may be absent; `Option` encodes absence.
The dynamic (`PyVal`) model further below captures the untyped Python
semantics and is proved to agree with this typed model on well-typed
manifests.
-/

/-- Element of the `licenses` sequence of an entry: a mapping with an
optional `text` field. -/
structure RawLicense where
  text : Option String
deriving Repr, DecidableEq

/-- Manifest entry with the five fields the script reads; a missing
field is `none`. -/
structure RawEntry where
  package_name : Option String
  package_version : Option String
  repository : Option String
  license : Option String
  licenses : Option (List RawLicense)
deriving Repr, DecidableEq

/-- One output row of the aggregation, as built on lines 113-118 of the
source. -/
structure Summary where
  component : String
  origin : String
  license : String
  copyright : String
deriving Repr, DecidableEq

/-- Secondary copyright fallback of lines 103-111 of the source
(reached only if `extract_copyright` returned a falsy value, which it
never does). -/
def secondaryFallback (package_name repository : String) : String :=
  if isSubstring "rust".data (lowerL package_name.data) ||
     isSubstring "rust".data (lowerL repository.data) then
    "The Rust Project Developers"
  else if isSubstring "datadog".data (lowerL repository.data) then "Datadog, Inc."
  else package_name ++ " Authors"

/-- Summary computed from a single manifest entry (lines 86-118 of the
source, the per-entry part). -/
def mkSummary (lib : RawEntry) : Summary :=
  let package_name := lib.package_name.getD ""
  let repository := lib.repository.getD ""
  let license_id := lib.license.getD ""
  let license_texts := (lib.licenses.getD []).map (fun lic => lic.text.getD "")
  let copyright_holder := extract_copyright license_texts package_name
  let copyright_holder :=
    if copyright_holder = "" then secondaryFallback package_name repository
    else copyright_holder
  ⟨package_name, repository, license_id, copyright_holder⟩

/-- Loop body of lines 85-118 of the source: an entry whose component
name was already seen is skipped, otherwise its summary is appended
(`OrderedDict` insertion preserves first-insertion order). -/
def parseStep (acc : List Summary) (lib : RawEntry) : List Summary :=
  if acc.any (fun s => s.component == lib.package_name.getD "") then acc
  else acc ++ [mkSummary lib]

/-- Lines 76-120 of the source, `parse_yml_to_csv`, over the entry
sequence of the manifest. -/
def parse_yml_to_csv (libs : List RawEntry) : List Summary :=
  libs.foldl parseStep []

/-!
Writer (`write_csv`, lines 122-136 of the source).
-/

/-- Python `str.replace` with a one-character pattern and a
one-character replacement is a character map. -/
def escapeField (s : String) : String :=
  String.mk (s.data.map (fun c => if c == ',' then ';' else c))

/-- One body line of the CSV (without the trailing newline written by
the source). -/
def lineOf (s : Summary) : String :=
  escapeField s.component ++ "," ++ escapeField s.origin ++ "," ++
  escapeField s.license ++ "," ++ escapeField s.copyright

/-- Sort key of line 129 of the source: the lowercased component
name. -/
def lowerKey (s : Summary) : List Char := lowerL s.component.data

/-- Lexicographic comparison of character lists by code point, the
order Python uses on strings. -/
def charListLe : List Char → List Char → Bool
  | [], _ => true
  | _ :: _, [] => false
  | a :: as, b :: bs =>
      if a.toNat < b.toNat then true
      else if b.toNat < a.toNat then false
      else charListLe as bs

/-- Stable insertion of a summary into a key-sorted list. -/
def insSorted (s : Summary) : List Summary → List Summary
  | [] => [s]
  | t :: ts =>
      if charListLe (lowerKey s) (lowerKey t) then s :: t :: ts
      else t :: insSorted s ts

/-- Stable sort by lowercased component name; Python's `sorted` is
stable, and a stable sort by a fixed key is unique, so insertion sort
models it exactly. -/
def sortSummaries : List Summary → List Summary
  | [] => []
  | s :: ss => insSorted s (sortSummaries ss)

/-- Lines 122-136 of the source, `write_csv`, as the list of lines of
the produced document: the fixed header followed by one line per
summary in sorted order. -/
def write_csv (components : List Summary) : List String :=
  "Component,Origin,License,Copyright" :: (sortSummaries components).map lineOf

/-- The document text itself: every line is written with a trailing
newline. -/
def csvText (components : List Summary) : String :=
  String.join ((write_csv components).map (fun l => l ++ "\n"))

/-!
Dynamic model.  The script reads the manifest through `yaml.safe_load`
and accesses it with `.get`, iteration, and string methods; a value of
an unexpected type raises an exception that aborts the whole run.
`PyVal` models the values such a document can hold, and the functions
below model the primitive operations with their failure cases
(`Except.error` standing for an uncaught Python exception).
-/

/-- Values a parsed YAML document can hold, as used by the script. -/
inductive PyVal where
  | strv : String → PyVal
  | intv : Int → PyVal
  | listv : List PyVal → PyVal
  | dictv : List (String × PyVal) → PyVal
  | nonev : PyVal
deriving Repr

/-- Python truthiness of a value. -/
def pyFalsy : PyVal → Bool
  | .strv s => s == ""
  | .intv n => n == 0
  | .listv xs => xs.isEmpty
  | .dictv kvs => kvs.isEmpty
  | .nonev => true

/-- Equality as used for dictionary key membership on the key types the
script can produce (strings, integers, `None`); values of different
types compare unequal. -/
def pyKeyEq : PyVal → PyVal → Bool
  | .strv a, .strv b => a == b
  | .intv a, .intv b => a == b
  | .nonev, .nonev => true
  | _, _ => false

/-- Python `x.get(k, d)`: defined on mappings, an `AttributeError` on
anything else. -/
def pyGet (v : PyVal) (k : String) (d : PyVal) : Except String PyVal :=
  match v with
  | .dictv kvs => .ok ((List.lookup k kvs).getD d)
  | _ => .error "AttributeError: no attribute get"

/-- Python `for x in v`: lists iterate over their elements, strings
over their one-character substrings, mappings over their keys; numbers
and `None` are not iterable. -/
def pyIter : PyVal → Except String (List PyVal)
  | .listv xs => .ok xs
  | .strv s => .ok (s.data.map (fun c => PyVal.strv (String.mk [c])))
  | .dictv kvs => .ok (kvs.map (fun kv => PyVal.strv kv.1))
  | _ => .error "TypeError: not iterable"

/-- Coercion used wherever the script applies a string method
(`.lower()`, `re.finditer`, `.replace`): a `TypeError` or
`AttributeError` on a non-string. -/
def pyStrOf : PyVal → Except String String
  | .strv s => .ok s
  | _ => .error "TypeError: expected a string"

/-- Name-based fallback of lines 66-74 in the dynamic model: the first
operation is the lowering of the package name, so a non-string
component name raises here. -/
def fallbackDyn (pn : PyVal) : Except String PyVal := do
  let s ← pyStrOf pn
  pure (PyVal.strv (fallbackName s))

/-- Lines 18-74 of the source in the dynamic model.  Falsy texts are
skipped before the pattern is applied, so a falsy non-string text is
harmless while a truthy non-string text raises; the component name is
only touched (and hence only type-checked) on the fallback path. -/
def extractDyn (texts : List PyVal) (pn : PyVal) : Except String PyVal := do
  let strs ← (texts.filter (fun t => !(pyFalsy t))).mapM pyStrOf
  match pickBest none ((rawCandidates strs).filter survives) with
  | some b => if b.isEmpty then fallbackDyn pn else pure (PyVal.strv (String.mk b))
  | none => fallbackDyn pn

/-- Secondary fallback of lines 103-111 in the dynamic model, with
Python's left-to-right short-circuit evaluation order of the guards. -/
def secondaryDyn (pn repo : PyVal) : Except String PyVal := do
  let pns ← pyStrOf pn
  if isSubstring "rust".data (lowerL pns.data) then
    pure (PyVal.strv "The Rust Project Developers")
  else do
    let rs ← pyStrOf repo
    if isSubstring "rust".data (lowerL rs.data) then
      pure (PyVal.strv "The Rust Project Developers")
    else if isSubstring "datadog".data (lowerL rs.data) then
      pure (PyVal.strv "Datadog, Inc.")
    else pure (PyVal.strv (pns ++ " Authors"))

/-- One aggregation row in the dynamic model: component name, origin,
license, copyright. -/
abbrev PyRow := PyVal × PyVal × PyVal × PyVal

/-- Loop body of lines 85-118 in the dynamic model: the four field
reads happen before the duplicate check; the `licenses` traversal,
extraction and fallbacks only on a fresh component name. -/
def parseStepDyn (acc : List PyRow) (lib : PyVal) : Except String (List PyRow) := do
  let pn ← pyGet lib "package_name" (PyVal.strv "")
  let _pv ← pyGet lib "package_version" (PyVal.strv "")
  let repo ← pyGet lib "repository" (PyVal.strv "")
  let licId ← pyGet lib "license" (PyVal.strv "")
  if acc.any (fun r => pyKeyEq r.1 pn) then pure acc
  else do
    let lics ← pyGet lib "licenses" (PyVal.listv [])
    let items ← pyIter lics
    let texts ← items.mapM (fun lic => pyGet lic "text" (PyVal.strv ""))
    let ch ← extractDyn texts pn
    let ch ← if pyFalsy ch then secondaryDyn pn repo else pure ch
    pure (acc ++ [(pn, repo, licId, ch)])

/-- Lines 76-120 of the source, `parse_yml_to_csv`, in the dynamic
model, over the entries of the `third_party_libraries` sequence. -/
def parse_yml_to_csv_dyn (libs : List PyVal) : Except String (List PyRow) :=
  libs.foldlM parseStepDyn []

/-- The writer reads every row field as a string (the sort key lowers
the component, the escaping replaces commas in all four fields). -/
def rowSummary (r : PyRow) : Except String Summary := do
  let c ← pyStrOf r.1
  let o ← pyStrOf r.2.1
  let l ← pyStrOf r.2.2.1
  let cp ← pyStrOf r.2.2.2
  pure ⟨c, o, l, cp⟩

/-- Lines 122-136 of the source, `write_csv`, in the dynamic model. -/
def write_csv_dyn (rows : List PyRow) : Except String (List String) := do
  let ss ← rows.mapM rowSummary
  pure (write_csv ss)

/-- The whole pipeline on a parsed manifest value: read the
`third_party_libraries` key with default `[]` (an `AttributeError` if
the document is not a mapping), iterate over it, aggregate, write. -/
def pipelineDyn (d : PyVal) : Except String (List String) := do
  let libsVal ← pyGet d "third_party_libraries" (PyVal.listv [])
  let libs ← pyIter libsVal
  let rows ← parse_yml_to_csv_dyn libs
  write_csv_dyn rows

/-- Optional key-value pair for a string field of the typed-to-dynamic
encoding: a present field becomes a key of the mapping, an absent field
is simply missing. -/
def optEntry (k : String) (v : Option String) : List (String × PyVal) :=
  match v with
  | some s => [(k, PyVal.strv s)]
  | none => []

/-- Encoding of a typed `licenses` element as a mapping. -/
def licToPyVal (l : RawLicense) : PyVal := .dictv (optEntry "text" l.text)

/-- Optional key-value pair for the `licenses` field. -/
def licensesEntry (v : Option (List RawLicense)) : List (String × PyVal) :=
  match v with
  | some ls => [("licenses", PyVal.listv (ls.map licToPyVal))]
  | none => []

/-- Encoding of a typed manifest entry as a mapping. -/
def entryToPyVal (e : RawEntry) : PyVal :=
  .dictv (optEntry "package_name" e.package_name ++
          (optEntry "package_version" e.package_version ++
           (optEntry "repository" e.repository ++
            (optEntry "license" e.license ++ licensesEntry e.licenses))))

/-- Projection of a typed summary to a dynamic row. -/
def summaryToRow (s : Summary) : PyRow :=
  (PyVal.strv s.component, PyVal.strv s.origin, PyVal.strv s.license, PyVal.strv s.copyright)

/-!
Properties of the candidate selection (`pickBest`) and of
`extract_copyright`.
-/

/-- A candidate that passes the filters has length at least 5. -/
theorem survives_length_ge {c : List Char} (h : survives c = true) : 5 ≤ c.length := by
  unfold survives at h
  simp only [Bool.and_eq_true, Bool.not_eq_true', Bool.or_eq_false_iff,
    decide_eq_false_iff_not, Nat.not_lt] at h
  exact h.1.2.1

/-- A candidate that passes the filters is nonempty. -/
theorem survives_ne_nil {c : List Char} (h : survives c = true) : c ≠ [] := by
  have h5 := survives_length_ge h
  intro hc
  subst hc
  simp at h5

/-- Once the accumulator holds a candidate, the selection loop cannot
return `none`. -/
theorem pickBest_isSome : ∀ (l : List (List Char)) (b : List Char),
    pickBest (some b) l ≠ none
  | [], _ => by simp [pickBest]
  | c :: cs, b => by
      simp only [pickBest]
      split
      · exact pickBest_isSome cs c
      · exact pickBest_isSome cs b

/-- Selection invariant: over nonempty candidates, the loop returns a
candidate of minimal length, and every candidate encountered before it
is strictly longer (so the first of minimal length wins). -/
theorem pickBest_spec : ∀ (l : List (List Char)) (b : List Char), b ≠ [] →
    (∀ c ∈ l, c ≠ []) →
    ∃ r l₁ l₂, pickBest (some b) l = some r ∧ b :: l = l₁ ++ r :: l₂ ∧
      (∀ c ∈ l₁, r.length < c.length) ∧ (∀ c ∈ b :: l, r.length ≤ c.length) := by
  intro l
  induction l with
  | nil =>
      intro b hb _
      exact ⟨b, [], [], rfl, rfl, by simp, by simp⟩
  | cons c cs ih =>
      intro b hb hne
      have hbe : b.isEmpty = false := by
        cases b with
        | nil => exact absurd rfl hb
        | cons x xs => rfl
      have hc : c ≠ [] := hne c (by simp)
      have hcs : ∀ d ∈ cs, d ≠ [] := fun d hd => hne d (by simp [hd])
      by_cases hlt : c.length < b.length
      · obtain ⟨r, l₁, l₂, hpick, hdec, hstrict, hle⟩ := ih c hc hcs
        refine ⟨r, b :: l₁, l₂, ?_, ?_, ?_, ?_⟩
        · simpa [pickBest, hbe, hlt] using hpick
        · simpa using congrArg (b :: ·) hdec
        · intro d hd
          rcases List.mem_cons.mp hd with hdb | hdl
          · subst hdb
            have : r.length ≤ c.length := hle c (by simp)
            omega
          · exact hstrict d hdl
        · intro d hd
          rcases List.mem_cons.mp hd with hdb | hdl
          · subst hdb
            have : r.length ≤ c.length := hle c (by simp)
            omega
          · exact hle d hdl
      · obtain ⟨r, l₁, l₂, hpick, hdec, hstrict, hle⟩ := ih b hb hcs
        have hpick' : pickBest (some b) (c :: cs) = some r := by
          simpa [pickBest, hbe, hlt] using hpick
        cases l₁ with
        | nil =>
            simp only [List.nil_append] at hdec
            injection hdec with hrb hl₂
            subst hrb
            subst hl₂
            refine ⟨b, [], c :: cs, hpick', by simp, by simp, ?_⟩
            intro d hd
            rcases List.mem_cons.mp hd with hdb | hdl
            · subst hdb; exact le_rfl
            · rcases List.mem_cons.mp hdl with hdc | hdcs
              · subst hdc; omega
              · exact hle d (by simp [hdcs])
        | cons x l₁' =>
            simp only [List.cons_append] at hdec
            injection hdec with hxb hcs'
            subst hxb
            have hrb : r.length < b.length := hstrict b (by simp)
            refine ⟨r, b :: c :: l₁', l₂, hpick', ?_, ?_, ?_⟩
            · simp [hcs']
            · intro d hd
              rcases List.mem_cons.mp hd with hdb | hd'
              · subst hdb; exact hrb
              · rcases List.mem_cons.mp hd' with hdc | hdl
                · subst hdc; omega
                · exact hstrict d (by simp [hdl])
            · intro d hd
              rcases List.mem_cons.mp hd with hdb | hd'
              · subst hdb; omega
              · rcases List.mem_cons.mp hd' with hdc | hdcs
                · subst hdc; omega
                · exact hle d (List.mem_cons_of_mem b hdcs)

/-- Every surviving candidate passes the filters. -/
theorem surviving_survives {texts : List String} {c : List Char}
    (h : c ∈ surviving texts) : survives c = true :=
  (List.mem_filter.mp h).2

/-- With no surviving candidate the extractor returns the name-based
fallback. -/
theorem extract_of_no_candidate {texts : List String} {name : String}
    (h : surviving texts = []) : extract_copyright texts name = fallbackName name := by
  unfold extract_copyright
  rw [h]
  rfl

/-- With surviving candidates, the extractor returns the first
candidate of minimal length among them. -/
theorem extract_pick {texts : List String} (name : String)
    (h : surviving texts ≠ []) :
    ∃ l₁ l₂, surviving texts = l₁ ++ (extract_copyright texts name).data :: l₂ ∧
      (∀ c ∈ l₁, (extract_copyright texts name).data.length < c.length) ∧
      (∀ c ∈ surviving texts, (extract_copyright texts name).data.length ≤ c.length) := by
  rcases hS : surviving texts with _ | ⟨s, rest⟩
  · exact absurd hS h
  · have hs : s ≠ [] := survives_ne_nil (surviving_survives (hS ▸ (by simp : s ∈ s :: rest)))
    have hrest : ∀ d ∈ rest, d ≠ [] := fun d hd =>
      survives_ne_nil (surviving_survives (hS ▸ (by simp [hd] : d ∈ s :: rest)))
    obtain ⟨r, l₁, l₂, hpick, hdec, hstrict, hle⟩ := pickBest_spec rest s hs hrest
    have hr : r ≠ [] := by
      have hrm : r ∈ s :: rest := hdec ▸ List.mem_append_right l₁ (by simp)
      exact survives_ne_nil (surviving_survives (hS ▸ hrm))
    have hre : r.isEmpty = false := by
      cases r with
      | nil => exact absurd rfl hr
      | cons x xs => rfl
    have hex : extract_copyright texts name = String.mk r := by
      unfold extract_copyright
      rw [hS]
      simp only [pickBest, hpick, hre]
      rfl
    refine ⟨l₁, l₂, ?_, ?_, ?_⟩
    · rw [hex]
      exact hdec
    · intro c hc
      rw [hex]
      exact hstrict c hc
    · intro c hc
      rw [hex]
      exact hle c hc

/-- The name-based fallback is never empty. -/
theorem fallbackName_ne_empty (name : String) : fallbackName name ≠ "" := by
  unfold fallbackName
  split
  · decide
  · split
    · decide
    · intro hcontra
      rw [String.ext_iff] at hcontra
      simp only [String.data_append] at hcontra
      have h4 : ("The ".data ++ name.data) ++ " Authors".data ≠ [] := by
        intro hnil
        rcases List.append_eq_nil.mp hnil with ⟨_, h2⟩
        exact absurd h2 (by decide)
      exact h4 hcontra

/-- The extractor never returns the empty string. -/
theorem extract_ne_empty (texts : List String) (name : String) :
    extract_copyright texts name ≠ "" := by
  by_cases h : surviving texts = []
  · rw [extract_of_no_candidate h]
    exact fallbackName_ne_empty name
  · obtain ⟨l₁, l₂, hdec, _, _⟩ := extract_pick name h
    intro hcontra
    have : (extract_copyright texts name).data = [] := by rw [hcontra]
    have hm : (extract_copyright texts name).data ∈ surviving texts := by
      rw [hdec]
      exact List.mem_append_right l₁ (by simp)
    exact survives_ne_nil (surviving_survives hm) this

/-- C1: for every sequence of license texts and every component name,
`extract_copyright` is total (a Lean function) and returns a non-empty
string: either a surviving candidate from the texts, or, when no
candidate survives, the literal "Datadog, Inc." if the name contains
"datadog" case-insensitively, else "The Rust Project Developers" if the
name contains "rust" case-insensitively or is one of the fixed core
runtime package names `libc`, `std`, `core`, else "The " ++ name ++
" Authors" with the name inserted verbatim. -/
theorem extract_copyright_total_spec (texts : List String) (name : String) :
    extract_copyright texts name ≠ "" ∧
    (surviving texts ≠ [] → (extract_copyright texts name).data ∈ surviving texts) ∧
    (surviving texts = [] →
      extract_copyright texts name =
        if isSubstring "datadog".data (lowerL name.data) then "Datadog, Inc."
        else if isSubstring "rust".data (lowerL name.data) ||
                (name == "libc" || name == "std" || name == "core") then
          "The Rust Project Developers"
        else "The " ++ name ++ " Authors") := by
  refine ⟨extract_ne_empty texts name, ?_, ?_⟩
  · intro h
    obtain ⟨l₁, l₂, hdec, _, _⟩ := extract_pick name h
    rw [hdec]
    exact List.mem_append_right l₁ (by simp)
  · intro h
    rw [extract_of_no_candidate h]
    rfl

/-- Closed instance of `extract_copyright_total_spec`. -/
theorem extract_copyright_total_spec_witness :
    extract_copyright ["Copyright 2020 Alice Smith"] "widget" ≠ "" ∧
    (surviving ["Copyright 2020 Alice Smith"] ≠ [] →
      (extract_copyright ["Copyright 2020 Alice Smith"] "widget").data ∈
        surviving ["Copyright 2020 Alice Smith"]) ∧
    (surviving ["Copyright 2020 Alice Smith"] = [] →
      extract_copyright ["Copyright 2020 Alice Smith"] "widget" =
        if isSubstring "datadog".data (lowerL "widget".data) then "Datadog, Inc."
        else if isSubstring "rust".data (lowerL "widget".data) ||
                ("widget" == "libc" || "widget" == "std" || "widget" == "core") then
          "The Rust Project Developers"
        else "The " ++ "widget" ++ " Authors") :=
  extract_copyright_total_spec ["Copyright 2020 Alice Smith"] "widget"

/-- C4: whenever at least one candidate survives the rejection
filters, the extractor returns a surviving candidate of minimum length,
and every candidate encountered before it in scan order is strictly
longer (so among candidates of equal minimal length the first
encountered wins). -/
theorem extract_shortest_first_spec (texts : List String) (name : String)
    (h : surviving texts ≠ []) :
    ∃ l₁ l₂, surviving texts = l₁ ++ (extract_copyright texts name).data :: l₂ ∧
      (∀ c ∈ l₁, (extract_copyright texts name).data.length < c.length) ∧
      (∀ c ∈ surviving texts, (extract_copyright texts name).data.length ≤ c.length) :=
  extract_pick name h

/-- Closed instance of `extract_shortest_first_spec` at a concrete
input with two surviving candidates of different lengths. -/
theorem extract_shortest_first_witness :
    surviving ["Copyright 2020 Nice Name\nCopyright 2020 Alice Wonderland\n"] ≠ [] ∧
    ∃ l₁ l₂,
      surviving ["Copyright 2020 Nice Name\nCopyright 2020 Alice Wonderland\n"] =
        l₁ ++ (extract_copyright
          ["Copyright 2020 Nice Name\nCopyright 2020 Alice Wonderland\n"] "x").data :: l₂ ∧
      (∀ c ∈ l₁,
        (extract_copyright
          ["Copyright 2020 Nice Name\nCopyright 2020 Alice Wonderland\n"] "x").data.length <
          c.length) ∧
      (∀ c ∈ surviving ["Copyright 2020 Nice Name\nCopyright 2020 Alice Wonderland\n"],
        (extract_copyright
          ["Copyright 2020 Nice Name\nCopyright 2020 Alice Wonderland\n"] "x").data.length ≤
          c.length) :=
  ⟨by decide,
   extract_shortest_first_spec
     ["Copyright 2020 Nice Name\nCopyright 2020 Alice Wonderland\n"] "x" (by decide)⟩

/-- C2, counterexample: a text can contain the exact line
`Copyright (c) 2020 Jane Doe <jane@example.com>` and still make
`extract_copyright` return a different holder, because a shorter
surviving candidate elsewhere in the texts wins the selection. -/
theorem extract_jane_doe_counterexample :
    isSubstring "Copyright (c) 2020 Jane Doe <jane@example.com>".data
      "Copyright 2020 Bobby\nCopyright (c) 2020 Jane Doe <jane@example.com>".data = true ∧
    extract_copyright
      ["Copyright 2020 Bobby\nCopyright (c) 2020 Jane Doe <jane@example.com>"] "x"
      = "Bobby" := by
  constructor
  · decide
  · decide

/-- C2, amended: for the sequence consisting of the single text
`Copyright (c) 2020 Jane Doe <jane@example.com>`, `extract_copyright`
returns `Jane Doe` for every component name (the `(c)` marker, the
year, and the angle-bracketed email are stripped). -/
theorem extract_jane_doe_single_text (name : String) :
    extract_copyright ["Copyright (c) 2020 Jane Doe <jane@example.com>"] name
      = "Jane Doe" := by
  have h : surviving ["Copyright (c) 2020 Jane Doe <jane@example.com>"]
      = ["Jane Doe".data] := by decide
  unfold extract_copyright
  rw [h]
  rfl

/-- C3: the source regular expression contains the double-encoded
marker 'Â' '©' instead of '©', so a text using the real '©' marker
produces no candidate and falls through to the name-based fallback,
while the same text with the mojibake marker yields the holder. -/
theorem extract_mojibake_marker_eval :
    extract_copyright ["Copyright © 2020 Jane Doe"] "widget" = "The widget Authors" ∧
    extract_copyright ["Copyright Â© 2020 Jane Doe"] "widget" = "Jane Doe" := by
  constructor
  · decide
  · decide

/-!
Properties of the aggregation (`parse_yml_to_csv`).
-/

/-- The component field of a computed summary is the entry's package
name (with the empty-string default). -/
theorem mkSummary_component (e : RawEntry) :
    (mkSummary e).component = e.package_name.getD "" := rfl

/-- Fold invariant of the aggregation: looking up a component name in
the result finds the summary of the first accumulator element with that
name if any, and otherwise the summary computed from the first manifest
entry with that name. -/
theorem parse_fold_find : ∀ (libs : List RawEntry) (acc : List Summary) (name : String),
    (libs.foldl parseStep acc).find? (fun s => s.component == name) =
      match acc.find? (fun s => s.component == name) with
      | some v => some v
      | none => (libs.find? (fun e => e.package_name.getD "" == name)).map mkSummary := by
  intro libs
  induction libs with
  | nil =>
      intro acc name
      cases h : acc.find? (fun s => s.component == name) <;> simp [h]
  | cons e libs ih =>
      intro acc name
      rw [List.foldl_cons]
      by_cases hseen : acc.any (fun s => s.component == e.package_name.getD "") = true
      · have hstep : parseStep acc e = acc := by
          unfold parseStep
          rw [hseen]
          rfl
        rw [hstep, ih acc name]
        cases hf : acc.find? (fun s => s.component == name) with
        | some v => rfl
        | none =>
            have hne : ¬ (e.package_name.getD "" == name) = true := by
              intro hkey
              have hkey' : e.package_name.getD "" = name := by
                simpa using hkey
              obtain ⟨s, hsmem, hsp⟩ := List.any_eq_true.mp hseen
              have : ∀ x ∈ acc, ¬ (x.component == name) = true :=
                List.find?_eq_none.mp hf
              exact this s hsmem (by simpa [hkey'] using hsp)
            have hkeyf : (e.package_name.getD "" == name) = false :=
              Bool.of_not_eq_true hne
            simp only [List.find?, hkeyf]
      · have hstep : parseStep acc e = acc ++ [mkSummary e] := by
          unfold parseStep
          rw [Bool.of_not_eq_true hseen]
          rfl
        rw [hstep, ih (acc ++ [mkSummary e]) name, List.find?_append]
        cases hf : acc.find? (fun s => s.component == name) with
        | some v => rfl
        | none =>
            simp only [Option.none_or]
            by_cases hkey : (e.package_name.getD "" == name) = true
            · have hkey' : e.package_name.getD "" = name := by simpa using hkey
              have h1 : List.find? (fun s => s.component == name) [mkSummary e]
                  = some (mkSummary e) := by
                simp [List.find?, mkSummary_component, hkey']
              rw [h1]
              simp only [List.find?, hkey]
              rfl
            · have hkeyf : (e.package_name.getD "" == name) = false :=
                Bool.of_not_eq_true hkey
              have h1 : List.find? (fun s => s.component == name) [mkSummary e] = none := by
                simp only [List.find?, mkSummary_component, hkeyf]
              rw [h1]
              simp only [List.find?, hkeyf]

/-- C5: for every manifest and component name, the aggregation keeps
exactly the first entry with that name in manifest order: the stored
summary is computed solely from that entry, and later entries with the
same name are discarded entirely. -/
theorem parse_first_record_wins (libs : List RawEntry) (name : String) :
    (parse_yml_to_csv libs).find? (fun s => s.component == name) =
      (libs.find? (fun e => e.package_name.getD "" == name)).map mkSummary := by
  have h := parse_fold_find libs [] name
  simpa [parse_yml_to_csv] using h

/-- Fold invariant: the aggregation never creates two summaries with
the same component name. -/
theorem parse_fold_nodup : ∀ (libs : List RawEntry) (acc : List Summary),
    (acc.map (fun s => s.component)).Nodup →
    ((libs.foldl parseStep acc).map (fun s => s.component)).Nodup := by
  intro libs
  induction libs with
  | nil => intro acc h; simpa using h
  | cons e libs ih =>
      intro acc h
      rw [List.foldl_cons]
      by_cases hseen : acc.any (fun s => s.component == e.package_name.getD "") = true
      · have hstep : parseStep acc e = acc := by
          unfold parseStep; rw [hseen]; rfl
        rw [hstep]
        exact ih acc h
      · have hstep : parseStep acc e = acc ++ [mkSummary e] := by
          unfold parseStep; rw [Bool.of_not_eq_true hseen]; rfl
        rw [hstep]
        refine ih _ ?_
        rw [List.map_append]
        rw [List.nodup_append]
        refine ⟨h, by simp, ?_⟩
        intro a ha hb
        simp only [List.map_cons, List.map_nil, List.mem_cons, List.not_mem_nil,
          or_false] at hb
        rw [mkSummary_component] at hb
        have : acc.any (fun s => s.component == e.package_name.getD "") = true := by
          rw [List.any_eq_true]
          obtain ⟨s, hsmem, hseq⟩ := List.mem_map.mp ha
          exact ⟨s, hsmem, by simp [hseq, hb]⟩
        exact hseen this

/-!
Properties of the writer (`write_csv`).
-/

/-- Inserting into a list produces a permutation of consing. -/
theorem insSorted_perm (s : Summary) : ∀ l : List Summary,
    (insSorted s l).Perm (s :: l)
  | [] => List.Perm.refl _
  | t :: ts => by
      unfold insSorted
      split
      · exact List.Perm.refl _
      · exact (List.Perm.cons t (insSorted_perm s ts)).trans (List.Perm.swap s t ts)

/-- The sort of the writer permutes its input. -/
theorem sortSummaries_perm : ∀ l : List Summary, (sortSummaries l).Perm l
  | [] => List.Perm.refl _
  | s :: ss =>
      (insSorted_perm s (sortSummaries ss)).trans (List.Perm.cons s (sortSummaries_perm ss))

/-- The code-point comparison is total. -/
theorem charListLe_total : ∀ a b : List Char,
    charListLe a b = true ∨ charListLe b a = true := by
  intro a
  induction a with
  | nil => intro b; left; rfl
  | cons x xs ih =>
      intro b
      cases b with
      | nil => right; rfl
      | cons y ys =>
          by_cases hxy : x.toNat < y.toNat
          · left
            simp [charListLe, hxy]
          · by_cases hyx : y.toNat < x.toNat
            · right
              simp [charListLe, hyx]
            · rcases ih ys with h | h
              · left
                simp [charListLe, hxy, hyx, h]
              · right
                simp [charListLe, hxy, hyx, h]

/-- The code-point comparison is transitive. -/
theorem charListLe_trans : ∀ a b c : List Char,
    charListLe a b = true → charListLe b c = true → charListLe a c = true := by
  intro a
  induction a with
  | nil => intro b c _ _; rfl
  | cons x xs ih =>
      intro b c hab hbc
      cases b with
      | nil => simp [charListLe] at hab
      | cons y ys =>
          cases c with
          | nil => simp [charListLe] at hbc
          | cons z zs =>
              simp only [charListLe] at hab hbc ⊢
              by_cases hxy : x.toNat < y.toNat
              · rw [if_pos hxy] at hab
                by_cases hyz : y.toNat < z.toNat
                · rw [if_pos (show x.toNat < z.toNat by omega)]
                · rw [if_neg hyz] at hbc
                  by_cases hzy : z.toNat < y.toNat
                  · rw [if_pos hzy] at hbc
                    exact absurd hbc (by decide)
                  · rw [if_pos (show x.toNat < z.toNat by omega)]
              · rw [if_neg hxy] at hab
                by_cases hyx : y.toNat < x.toNat
                · rw [if_pos hyx] at hab
                  exact absurd hab (by decide)
                · rw [if_neg hyx] at hab
                  by_cases hyz : y.toNat < z.toNat
                  · rw [if_pos hyz] at hbc
                    rw [if_pos (show x.toNat < z.toNat by omega)]
                  · rw [if_neg hyz] at hbc
                    by_cases hzy : z.toNat < y.toNat
                    · rw [if_pos hzy] at hbc
                      exact absurd hbc (by decide)
                    · rw [if_neg hzy] at hbc
                      rw [if_neg (show ¬ x.toNat < z.toNat by omega),
                          if_neg (show ¬ z.toNat < x.toNat by omega)]
                      exact ih ys zs hab hbc

/-- Inserting into a key-sorted list keeps it key-sorted. -/
theorem insSorted_pairwise (s : Summary) : ∀ l : List Summary,
    l.Pairwise (fun a b => charListLe (lowerKey a) (lowerKey b) = true) →
    (insSorted s l).Pairwise (fun a b => charListLe (lowerKey a) (lowerKey b) = true) := by
  intro l
  induction l with
  | nil => intro _; simp [insSorted]
  | cons t ts ih =>
      intro hl
      rw [List.pairwise_cons] at hl
      obtain ⟨ht, hts⟩ := hl
      unfold insSorted
      split
      · rename_i hst
        rw [List.pairwise_cons]
        refine ⟨?_, List.pairwise_cons.mpr ⟨ht, hts⟩⟩
        intro b hb
        rcases List.mem_cons.mp hb with hbt | hbts
        · subst hbt; exact hst
        · exact charListLe_trans _ _ _ hst (ht b hbts)
      · rename_i hst
        rw [List.pairwise_cons]
        refine ⟨?_, ih hts⟩
        intro b hb
        have hb' : b ∈ s :: ts := (insSorted_perm s ts).mem_iff.mp hb
        rcases List.mem_cons.mp hb' with hbs | hbts
        · subst hbs
          rcases charListLe_total (lowerKey b) (lowerKey t) with h | h
          · exact absurd h hst
          · exact h
        · exact ht b hbts

/-- The sort of the writer produces a key-sorted list. -/
theorem sortSummaries_pairwise : ∀ l : List Summary,
    (sortSummaries l).Pairwise (fun a b => charListLe (lowerKey a) (lowerKey b) = true)
  | [] => by simp [sortSummaries]
  | s :: ss => insSorted_pairwise s (sortSummaries ss) (sortSummaries_pairwise ss)

/-- C6, amended: the rows that reach the writer are uniquely keyed by
component name: no two summaries produced by the aggregation (nor two
lines written after sorting) stem from the same component name.  The
literal text of the Component field can still collide when two distinct
names become equal under the comma-to-semicolon escaping (see the
counterexample). -/
theorem write_csv_unique_component_names (libs : List RawEntry) :
    ((parse_yml_to_csv libs).map (fun s => s.component)).Nodup ∧
    ((sortSummaries (parse_yml_to_csv libs)).map (fun s => s.component)).Nodup := by
  have h1 : ((parse_yml_to_csv libs).map (fun s => s.component)).Nodup :=
    parse_fold_nodup libs [] (by simp)
  refine ⟨h1, ?_⟩
  have hp : ((sortSummaries (parse_yml_to_csv libs)).map (fun s => s.component)).Perm
      ((parse_yml_to_csv libs).map (fun s => s.component)) :=
    (sortSummaries_perm (parse_yml_to_csv libs)).map (fun s => s.component)
  exact hp.nodup_iff.mpr h1

/-- C6, counterexample: two distinct component names that differ only
by a comma versus a semicolon survive deduplication as distinct keys,
yet their Component fields coincide after escaping; the claim that no
two body lines share a Component field value is false. -/
theorem write_csv_component_field_collision :
    write_csv (parse_yml_to_csv
      [⟨some "a,b", none, none, none, none⟩, ⟨some "a;b", none, none, none, none⟩]) =
      ["Component,Origin,License,Copyright",
       "a;b,,,The a;b Authors",
       "a;b,,,The a;b Authors"] ∧
    ("a,b" : String) ≠ "a;b" := by
  constructor
  · decide
  · decide

/-- C7: the document produced by the writer has the fixed header as its
first line, followed by exactly one line per summary, and the summaries
behind the body lines are in non-decreasing order of the lowercased
component name. -/
theorem write_csv_header_and_sorted (components : List Summary) :
    write_csv components =
      "Component,Origin,License,Copyright" :: (sortSummaries components).map lineOf ∧
    (sortSummaries components).Perm components ∧
    (sortSummaries components).Pairwise
      (fun a b => charListLe (lowerKey a) (lowerKey b) = true) ∧
    (write_csv components).length = components.length + 1 := by
  refine ⟨rfl, sortSummaries_perm components, sortSummaries_pairwise components, ?_⟩
  simp [write_csv, (sortSummaries_perm components).length_eq]

/-- Commas never survive the field escaping. -/
theorem escapeField_no_comma (t : String) : ',' ∉ (escapeField t).data := by
  intro hmem
  unfold escapeField at hmem
  simp only [String.data] at hmem
  obtain ⟨c, _, hc⟩ := List.mem_map.mp hmem
  by_cases h : (c == ',') = true
  · rw [if_pos h] at hc
    exact absurd hc (by decide)
  · rw [if_neg h] at hc
    subst hc
    simp at h

/-- C8: no field of a body line contains a literal comma (every comma
of the source value was turned into a semicolon), so a body line
contains exactly the three separating commas. -/
theorem write_csv_no_comma_in_fields (s : Summary) :
    ',' ∉ (escapeField s.component).data ∧
    ',' ∉ (escapeField s.origin).data ∧
    ',' ∉ (escapeField s.license).data ∧
    ',' ∉ (escapeField s.copyright).data ∧
    (lineOf s).data.count ',' = 3 := by
  refine ⟨escapeField_no_comma _, escapeField_no_comma _, escapeField_no_comma _,
    escapeField_no_comma _, ?_⟩
  unfold lineOf
  simp only [String.data_append, List.count_append]
  rw [List.count_eq_zero.mpr (escapeField_no_comma s.component),
      List.count_eq_zero.mpr (escapeField_no_comma s.origin),
      List.count_eq_zero.mpr (escapeField_no_comma s.license),
      List.count_eq_zero.mpr (escapeField_no_comma s.copyright)]
  rfl

/-!
Agreement of the dynamic model with the typed model on well-typed
manifests, and failure of the dynamic model on a malformed field.
-/

/-- Looking up the encoded field's own key. -/
theorem lookup_optEntry_eq (k : String) (v : Option String)
    (rest : List (String × PyVal)) (h : List.lookup k rest = none) :
    List.lookup k (optEntry k v ++ rest) = v.map PyVal.strv := by
  cases v with
  | some s => simp [optEntry, List.lookup]
  | none => simp [optEntry, h]

/-- Looking up a different key skips an encoded field. -/
theorem lookup_optEntry_ne (k k' : String) (hne : (k == k') = false)
    (v : Option String) (rest : List (String × PyVal)) :
    List.lookup k (optEntry k' v ++ rest) = List.lookup k rest := by
  cases v with
  | some s => simp [optEntry, List.lookup, hne]
  | none => simp [optEntry]

/-- Looking up a different key skips the encoded `licenses` field. -/
theorem lookup_licensesEntry_ne (k : String) (hne : (k == "licenses") = false)
    (v : Option (List RawLicense)) :
    List.lookup k (licensesEntry v) = none := by
  cases v with
  | some ls => simp [licensesEntry, List.lookup, hne]
  | none => simp [licensesEntry]

/-- Reading `package_name` from an encoded entry. -/
theorem pyGet_entry_name (e : RawEntry) :
    pyGet (entryToPyVal e) "package_name" (PyVal.strv "") =
      .ok (PyVal.strv (e.package_name.getD "")) := by
  simp only [pyGet, entryToPyVal]
  rw [lookup_optEntry_eq _ _ _ (by
    rw [lookup_optEntry_ne _ _ (by decide), lookup_optEntry_ne _ _ (by decide),
        lookup_optEntry_ne _ _ (by decide)]
    exact lookup_licensesEntry_ne _ (by decide) _)]
  cases e.package_name <;> rfl

/-- Reading `package_version` from an encoded entry. -/
theorem pyGet_entry_version (e : RawEntry) :
    pyGet (entryToPyVal e) "package_version" (PyVal.strv "") =
      .ok (PyVal.strv (e.package_version.getD "")) := by
  simp only [pyGet, entryToPyVal]
  rw [lookup_optEntry_ne _ _ (by decide)]
  rw [lookup_optEntry_eq _ _ _ (by
    rw [lookup_optEntry_ne _ _ (by decide), lookup_optEntry_ne _ _ (by decide)]
    exact lookup_licensesEntry_ne _ (by decide) _)]
  cases e.package_version <;> rfl

/-- Reading `repository` from an encoded entry. -/
theorem pyGet_entry_repository (e : RawEntry) :
    pyGet (entryToPyVal e) "repository" (PyVal.strv "") =
      .ok (PyVal.strv (e.repository.getD "")) := by
  simp only [pyGet, entryToPyVal]
  rw [lookup_optEntry_ne _ _ (by decide), lookup_optEntry_ne _ _ (by decide)]
  rw [lookup_optEntry_eq _ _ _ (by
    rw [lookup_optEntry_ne _ _ (by decide)]
    exact lookup_licensesEntry_ne _ (by decide) _)]
  cases e.repository <;> rfl

/-- Reading `license` from an encoded entry. -/
theorem pyGet_entry_license (e : RawEntry) :
    pyGet (entryToPyVal e) "license" (PyVal.strv "") =
      .ok (PyVal.strv (e.license.getD "")) := by
  simp only [pyGet, entryToPyVal]
  rw [lookup_optEntry_ne _ _ (by decide), lookup_optEntry_ne _ _ (by decide),
      lookup_optEntry_ne _ _ (by decide)]
  rw [lookup_optEntry_eq _ _ _ (lookup_licensesEntry_ne _ (by decide) _)]
  cases e.license <;> rfl

/-- Reading `licenses` from an encoded entry. -/
theorem pyGet_entry_licenses (e : RawEntry) :
    pyGet (entryToPyVal e) "licenses" (PyVal.listv []) =
      .ok (PyVal.listv ((e.licenses.getD []).map licToPyVal)) := by
  simp only [pyGet, entryToPyVal]
  rw [lookup_optEntry_ne _ _ (by decide), lookup_optEntry_ne _ _ (by decide),
      lookup_optEntry_ne _ _ (by decide), lookup_optEntry_ne _ _ (by decide)]
  cases e.licenses with
  | some ls => simp [licensesEntry, List.lookup]
  | none => simp [licensesEntry]

/-- Reading `text` from an encoded license element. -/
theorem pyGet_lic_text (l : RawLicense) :
    pyGet (licToPyVal l) "text" (PyVal.strv "") =
      .ok (PyVal.strv (l.text.getD "")) := by
  simp only [pyGet, licToPyVal]
  cases l.text with
  | some s => simp [optEntry, List.lookup]
  | none => simp [optEntry]

/-- Mapping a pointwise-successful action over an encoded list
succeeds and produces the pointwise results. -/
theorem mapM_map_ok {α β γ : Type} (f : β → Except String γ) (h : α → β) (g : α → γ) :
    ∀ l : List α, (∀ x ∈ l, f (h x) = .ok (g x)) →
      (l.map h).mapM f = .ok (l.map g) := by
  intro l
  induction l with
  | nil => intro _; rfl
  | cons x xs ih =>
      intro hl
      rw [List.map_cons, List.mapM_cons, hl x (by simp), ih (fun y hy => hl y (by simp [hy]))]
      rfl

/-- Candidate scanning is unaffected by a repeated removal of empty
texts. -/
theorem rawCandidates_filter (strs : List String) :
    rawCandidates (strs.filter (fun t => !(t == ""))) = rawCandidates strs := by
  unfold rawCandidates
  rw [List.filter_filter]
  have heq : (fun a : String => (!(a == "")) && (!(a == ""))) =
      (fun t : String => !(t == "")) := by
    funext a
    cases h : (a == "") <;> simp [h]
  rw [heq]

/-- On string texts and a string component name, the dynamic extractor
agrees with the typed one. -/
theorem extractDyn_strs (strs : List String) (n : String) :
    extractDyn (strs.map PyVal.strv) (PyVal.strv n) =
      .ok (PyVal.strv (extract_copyright strs n)) := by
  have hfilter : (strs.map PyVal.strv).filter (fun t => !(pyFalsy t)) =
      (strs.filter (fun t => !(t == ""))).map PyVal.strv := by
    rw [List.filter_map]
    rfl
  have hmap : ((strs.map PyVal.strv).filter (fun t => !(pyFalsy t))).mapM pyStrOf =
      .ok (strs.filter (fun t => !(t == ""))) := by
    rw [hfilter]
    have h := mapM_map_ok pyStrOf PyVal.strv (fun s => s)
      (strs.filter (fun t => !(t == ""))) (fun x _ => rfl)
    simpa using h
  unfold extractDyn
  rw [hmap]
  show (match pickBest none
      ((rawCandidates (strs.filter (fun t => !(t == "")))).filter survives) with
    | some b => if b.isEmpty then fallbackDyn (PyVal.strv n)
                else pure (PyVal.strv (String.mk b))
    | none => fallbackDyn (PyVal.strv n)) =
      Except.ok (PyVal.strv (extract_copyright strs n))
  rw [rawCandidates_filter]
  unfold extract_copyright surviving
  cases hpb : pickBest none ((rawCandidates strs).filter survives) with
  | some b =>
      by_cases hbe : b.isEmpty = true
      · simp only [hbe, if_true]
        rfl
      · simp only [Bool.of_not_eq_true hbe, if_false]
        rfl
  | none => rfl

/-- Binding a success is application. -/
theorem ok_bind {α β : Type} (a : α) (f : α → Except String β) :
    (Except.ok a >>= f) = f a := rfl

/-- Iterating an encoded list. -/
theorem pyIter_listv (xs : List PyVal) : pyIter (PyVal.listv xs) = .ok xs := rfl

/-- The duplicate check of the dynamic model agrees with the typed
one. -/
theorem any_map_summaryToRow (acc : List Summary) (key : String) :
    (acc.map summaryToRow).any (fun r => pyKeyEq r.1 (PyVal.strv key)) =
      acc.any (fun s => s.component == key) := by
  induction acc with
  | nil => rfl
  | cons s ss ih =>
      simp only [List.map_cons, List.any_cons, ih]
      rfl

/-- The summary of an entry, written out. -/
theorem mkSummary_eq (e : RawEntry) :
    mkSummary e =
      ⟨e.package_name.getD "", e.repository.getD "", e.license.getD "",
       extract_copyright ((e.licenses.getD []).map (fun lic => lic.text.getD ""))
         (e.package_name.getD "")⟩ := by
  simp only [mkSummary]
  rw [if_neg (extract_ne_empty _ _)]

/-- On an encoded entry, one step of the dynamic aggregation agrees
with one step of the typed aggregation. -/
theorem parseStepDyn_entry (acc : List Summary) (e : RawEntry) :
    parseStepDyn (acc.map summaryToRow) (entryToPyVal e) =
      .ok ((parseStep acc e).map summaryToRow) := by
  unfold parseStepDyn
  simp only [pyGet_entry_name, pyGet_entry_version, pyGet_entry_repository,
    pyGet_entry_license, ok_bind]
  rw [any_map_summaryToRow]
  by_cases hseen : acc.any (fun s => s.component == e.package_name.getD "") = true
  · rw [if_pos hseen]
    have hstep : parseStep acc e = acc := by
      unfold parseStep; rw [hseen]; rfl
    rw [hstep]
    rfl
  · rw [if_neg hseen]
    have hstep : parseStep acc e = acc ++ [mkSummary e] := by
      unfold parseStep; rw [Bool.of_not_eq_true hseen]; rfl
    rw [hstep]
    have htexts : ((e.licenses.getD []).map licToPyVal).mapM
        (fun lic => pyGet lic "text" (PyVal.strv "")) =
        .ok ((e.licenses.getD []).map (fun l => PyVal.strv (l.text.getD ""))) :=
      mapM_map_ok _ licToPyVal (fun l => PyVal.strv (l.text.getD ""))
        (e.licenses.getD []) (fun x _ => pyGet_lic_text x)
    simp only [pyGet_entry_licenses, ok_bind, pyIter_listv, htexts]
    have hmm : (e.licenses.getD []).map (fun l => PyVal.strv (l.text.getD "")) =
        ((e.licenses.getD []).map (fun l => l.text.getD "")).map PyVal.strv := by
      rw [List.map_map]
      rfl
    rw [hmm]
    simp only [extractDyn_strs, ok_bind]
    have hfalsy : pyFalsy (PyVal.strv (extract_copyright
        ((e.licenses.getD []).map (fun l => l.text.getD "")) (e.package_name.getD ""))) =
        false := by
      simp only [pyFalsy]
      exact beq_eq_false_iff_ne.mpr (extract_ne_empty _ _)
    rw [hfalsy]
    simp only [Bool.false_eq_true, if_false, ok_bind]
    rw [List.map_append]
    rw [mkSummary_eq]
    rfl

/-- The dynamic aggregation over an encoded manifest succeeds and
agrees with the typed aggregation. -/
theorem parse_dyn_fold : ∀ (libs : List RawEntry) (acc : List Summary),
    (libs.map entryToPyVal).foldlM parseStepDyn (acc.map summaryToRow) =
      .ok ((libs.foldl parseStep acc).map summaryToRow) := by
  intro libs
  induction libs with
  | nil => intro acc; rfl
  | cons e es ih =>
      intro acc
      rw [List.map_cons, List.foldlM_cons, parseStepDyn_entry, ok_bind, List.foldl_cons]
      exact ih (parseStep acc e)

/-- C9, amended: a manifest whose entries are mappings with any subset
of the five fields present (each with a well-typed value, possibly
missing) loads without failure; every missing optional field defaults
to the empty string, exactly as in the typed model. -/
theorem parse_dyn_well_typed_ok (libs : List RawEntry) :
    parse_yml_to_csv_dyn (libs.map entryToPyVal) =
      .ok ((parse_yml_to_csv libs).map summaryToRow) :=
  parse_dyn_fold libs []

/-- C9, counterexample: a single malformed (wrongly typed) field on one
entry aborts the whole load: `licenses` given as the string `bad` is
iterated character by character and `lic.get` then raises, so the
dynamic aggregation returns an error for the whole manifest. -/
theorem parse_dyn_malformed_field_fails :
    parse_yml_to_csv_dyn
      [PyVal.dictv [("package_name", PyVal.strv "x"), ("licenses", PyVal.strv "bad")]] =
      .error "AttributeError: no attribute get" := rfl

/-- C10: a manifest with no entries under `third_party_libraries`
(including an absent key) flows through the whole pipeline and produces
exactly the header line. -/
theorem pipeline_empty_manifest (kvs : List (String × PyVal))
    (h : List.lookup "third_party_libraries" kvs = none ∨
         List.lookup "third_party_libraries" kvs = some (PyVal.listv [])) :
    pipelineDyn (PyVal.dictv kvs) = .ok ["Component,Origin,License,Copyright"] := by
  have h1 : pyGet (PyVal.dictv kvs) "third_party_libraries" (PyVal.listv []) =
      .ok (PyVal.listv []) := by
    rcases h with h | h <;> simp [pyGet, h]
  unfold pipelineDyn
  rw [h1]
  rfl

/-- Closed instance of `pipeline_empty_manifest` on the empty
mapping. -/
theorem pipeline_empty_manifest_witness :
    pipelineDyn (PyVal.dictv []) = .ok ["Component,Origin,License,Copyright"] :=
  pipeline_empty_manifest [] (Or.inl rfl)
